import Mathlib

set_option autoImplicit false

namespace Datastore

/-! Shallow embedding of the dimerapp/datastore search indexing and
query-highlighting engine (src/Index.js and src/Search.js).
JavaScript strings are modelled as lists of characters; JS objects used
as string-keyed maps are modelled as association lists preserving
insertion order, matching JS object/Map key ordering. -/

/-- JS strings are modelled as lists of characters. -/
abbrev Str := List Char

/-- JavaScript `text.substr(start, len)` for non-negative arguments.
A negative JS length yields the empty string; `Nat` subtraction at call
sites produces `0` in exactly those cases, which `take 0` matches. -/
def substrJS (s : Str) (start len : Nat) : Str :=
  (s.drop start).take len

/-- Token kind of a highlight fragment: plain text or a matched term. -/
inductive MarkType where
  | raw
  | mark
deriving DecidableEq, Repr

/-- One highlight token produced by `Search._positionToMarks`. The text is
`Option`al because JS can pass `undefined` through (`text: undefined`). -/
structure Mark where
  type : MarkType
  text : Option Str
deriving DecidableEq, Repr

/-- One keyword entry of a lunr match's metadata: `some positions` models a
keyword object carrying a `content.position` array, `none` models a keyword
without a `content` key (`Search._collectPositions` skips those). -/
abbrev Keyword := Option (List (Nat × Nat))

/-- A lunr `matchData.metadata` object: its keyword entries in key order. -/
abbrev Metadata := List Keyword

/-- `Search._collectPositions`: flattens the per-keyword position arrays,
in metadata key order, without sorting. -/
def collectPositions (metadata : Metadata) : List (Nat × Nat) :=
  metadata.foldl
    (fun result keyword =>
      match keyword with
      | some position => result ++ position
      | none => result)
    []

/-- One step of the reduce inside `Search._positionToMarks`: pushes the raw
token before the match and the mark token for it, then moves `lastIndex`. -/
def markStep (t : Str) (acc : List Mark × Nat) (pos : Nat × Nat) : List Mark × Nat :=
  (acc.1 ++ [⟨MarkType.raw, some (substrJS t acc.2 (pos.1 - acc.2))⟩,
             ⟨MarkType.mark, some (substrJS t pos.1 pos.2)⟩],
   pos.1 + pos.2)

/-- `Search._positionToMarks positions text`. A falsy (`undefined` or empty)
text, or an empty position list, yields a single raw token holding the text
unchanged; otherwise alternating raw/mark tokens are built by `markStep` and
the remainder of the text is appended as a final raw token. -/
def positionToMarks (positions : List (Nat × Nat)) (text : Option Str) : List Mark :=
  match text with
  | none => [⟨MarkType.raw, none⟩]
  | some t =>
    if t.isEmpty || positions.isEmpty then [⟨MarkType.raw, some t⟩]
    else
      let folded := positions.foldl (markStep t) ([], 0)
      if folded.2 < t.length then
        folded.1 ++ [⟨MarkType.raw, some (t.drop folded.2)⟩]
      else
        folded.1

/-- `HighlightResult`: a score together with the highlight tokens. -/
structure HighlightResult where
  score : Int
  marks : List Mark
deriving DecidableEq, Repr

/-- `Search._nodeToMarks score metadata content`: collects positions when the
metadata object is present (truthy) and reconstructs the marks. -/
def nodeToMarks (score : Int) (metadata : Option Metadata) (content : Option Str) :
    HighlightResult :=
  ⟨score,
   positionToMarks
     (match metadata with
      | some m => collectPositions m
      | none => [])
     content⟩

/-- Concatenation of the texts of all tokens, in order (a JS `undefined`
text contributes nothing). -/
def marksText (marks : List Mark) : Str :=
  marks.foldr (fun m acc => m.text.getD [] ++ acc) []

/-- A position list is chained from a cursor when each pair starts at or
after the cursor and the cursor then advances past the pair: the pairs are
in ascending start order and pairwise non-overlapping. -/
def chainedFrom (cursor : Nat) : List (Nat × Nat) → Bool
  | [] => true
  | pos :: rest => decide (cursor ≤ pos.1) && chainedFrom (pos.1 + pos.2) rest

theorem marksText_nil : marksText [] = [] := rfl

theorem marksText_cons (m : Mark) (ms : List Mark) :
    marksText (m :: ms) = m.text.getD [] ++ marksText ms := rfl

theorem marksText_append (xs ys : List Mark) :
    marksText (xs ++ ys) = marksText xs ++ marksText ys := by
  induction xs with
  | nil => simp [marksText_nil]
  | cons x xs ih => simp [marksText_cons, ih]

theorem substrJS_chain (t : Str) (c s l f : Nat) (h1 : c ≤ s) (h2 : s + l ≤ f) :
    substrJS t c (s - c) ++ (substrJS t s l ++ substrJS t (s + l) (f - (s + l))) =
      substrJS t c (f - c) := by
  unfold substrJS
  have e1 : f - c = (s - c) + (l + (f - (s + l))) := by omega
  rw [e1, List.take_add, List.drop_drop]
  have e2 : c + (s - c) = s := by omega
  rw [e2, List.take_add, List.drop_drop]

/-- Core invariant of the reduce inside `_positionToMarks`: starting from an
accumulator with cursor `acc.2` and chained positions, the fold appends
exactly the text from the cursor up to the final cursor, and the cursor
never moves backwards. -/
theorem markStep_fold (t : Str) :
    ∀ (ps : List (Nat × Nat)) (acc : List Mark × Nat),
      chainedFrom acc.2 ps = true →
      acc.2 ≤ (ps.foldl (markStep t) acc).2 ∧
      marksText (ps.foldl (markStep t) acc).1 =
        marksText acc.1 ++ substrJS t acc.2 ((ps.foldl (markStep t) acc).2 - acc.2) := by
  intro ps
  induction ps with
  | nil =>
    intro acc _
    simp [substrJS]
  | cons p rest ih =>
    intro acc hch
    simp only [chainedFrom, Bool.and_eq_true, decide_eq_true_eq] at hch
    obtain ⟨hcle, hrest⟩ := hch
    simp only [List.foldl_cons]
    have hsnd : (markStep t acc p).2 = p.1 + p.2 := rfl
    have ihr := ih (markStep t acc p) (by rw [hsnd]; exact hrest)
    rw [hsnd] at ihr
    obtain ⟨hle, htext⟩ := ihr
    refine ⟨by omega, ?_⟩
    have hm1 : marksText (markStep t acc p).1 =
        marksText acc.1 ++ (substrJS t acc.2 (p.1 - acc.2) ++ substrJS t p.1 p.2) := by
      show marksText (acc.1 ++ [⟨MarkType.raw, some (substrJS t acc.2 (p.1 - acc.2))⟩,
          ⟨MarkType.mark, some (substrJS t p.1 p.2)⟩]) = _
      rw [marksText_append]
      simp [marksText_cons, marksText_nil]
    rw [htext, hm1]
    simp only [List.append_assoc]
    rw [substrJS_chain t acc.2 p.1 p.2 (rest.foldl (markStep t) (markStep t acc p)).2
      hcle (by rw [← hsnd]; exact hle)]

/-- C1 (amended): when the collected positions are in ascending start order
and pairwise non-overlapping (`chainedFrom 0`), concatenating the texts of
all raw and mark tokens reproduces the field text exactly. -/
theorem c1_roundtrip_chained (text : Str) (positions : List (Nat × Nat))
    (h : chainedFrom 0 positions = true) :
    marksText (positionToMarks positions (some text)) = text := by
  unfold positionToMarks
  by_cases hempty : text.isEmpty || positions.isEmpty
  · simp only [hempty, if_true]
    simp [marksText_cons, marksText_nil]
  · simp only [Bool.not_eq_true] at hempty
    simp only [hempty, Bool.false_eq_true, if_false]
    have hmain := markStep_fold text positions ([], 0) (by simpa using h)
    obtain ⟨-, htext⟩ := hmain
    simp only [marksText_nil, List.nil_append, Nat.sub_zero] at htext
    by_cases hlt :
        (positions.foldl (markStep text) ([], 0)).2 < text.length
    · simp only [hlt, if_true]
      rw [marksText_append, htext]
      simp only [marksText_cons, marksText_nil, Option.getD_some, List.append_nil]
      simp [substrJS]
    · simp only [hlt, if_false]
      rw [htext]
      simp only [substrJS, List.drop_zero]
      exact List.take_of_length_le (by omega)

/-- C1 counterexample: two keywords whose position lists are not in ascending
start order (lunr metadata is keyed per keyword; `_collectPositions` merely
concatenates without sorting), on the field text `abcde`: the concatenated
token texts duplicate the text instead of reproducing it. -/
theorem c1_counterexample :
    marksText (positionToMarks (collectPositions [some [(3, 2)], some [(0, 2)]])
        (some "abcde".data)) ≠ "abcde".data := by decide

theorem c1_roundtrip_chained_witness :
    chainedFrom 0 [(1, 2), (4, 1)] = true ∧
    marksText (positionToMarks [(1, 2), (4, 1)] (some "abcdef".data)) = "abcdef".data :=
  ⟨by decide, c1_roundtrip_chained "abcdef".data [(1, 2), (4, 1)] (by decide)⟩

/-- Props of a parsed AST node (`className` list and optional `href`). -/
structure Props where
  className : List Str
  href : Option Str
deriving DecidableEq, Repr

/-- A node of the parsed document tree handed to `Index.addDoc`: a `type`
(for example `element` or `text`), a `tag`, props, children and a text
value (`[]` models a missing/empty JS `value`, which is falsy either way). -/
inductive Node where
  | mk (type : Str) (tag : Str) (props : Props) (children : List Node) (value : Str)

def Node.type : Node → Str
  | .mk t _ _ _ _ => t

def Node.tag : Node → Str
  | .mk _ tg _ _ _ => tg

def Node.props : Node → Props
  | .mk _ _ pr _ _ => pr

def Node.children : Node → List Node
  | .mk _ _ _ ch _ => ch

def Node.value : Node → Str
  | .mk _ _ _ _ v => v

mutual

/-- `mdast-util-to-string`: a node's own `value` when truthy, otherwise the
concatenation of its children's strings. -/
def mdToString : Node → Str
  | .mk _ _ _ children value =>
    if value.isEmpty then mdListToString children else value

def mdListToString : List Node → Str
  | [] => []
  | n :: rest => mdToString n ++ mdListToString rest

end

/-- `Index.blackListedBlockTags`. -/
def blackListedBlockTags : List Str :=
  ["pre".data, "html".data, "image".data, "imageReference".data,
   "linkReference".data, "th".data]

/-- `Index.blackListedClasses`. -/
def blackListedClasses : List Str :=
  ["dimer-highlight".data, "toc-container".data]

/-- `Index.headings`. -/
def headings : List Str :=
  ["h1".data, "h2".data, "h3".data, "h4".data]

/-- `Index._isWhiteListed`: the tag is not blacklisted and no class name of
the node is blacklisted. -/
def isWhiteListed (node : Node) : Bool :=
  !(blackListedBlockTags.contains node.tag) &&
    node.props.className.all (fun c => !(blackListedClasses.contains c))

/-- `Index._isHeading`. -/
def isHeading (node : Node) : Bool :=
  headings.contains node.tag

/-- The reduce inside the `tr` branch of `Index._nodeToString`: collects the
whitelisted cells' flattened strings, skipping empty ones. -/
def trCells (children : List Node) : List Str :=
  children.foldl
    (fun result item =>
      if !(isWhiteListed item) then result
      else
        let parsed := mdToString item
        if parsed.isEmpty then result else result ++ [parsed])
    []

mutual

/-- `Index._nodeToString`: the list of plain-text strings contributed by a
node. The JS `tr` branch returns a plain string joined with spaces; since
every caller tests `parsed.length` before concatenating, an empty joined
string is modelled as `[]` and a non-empty one as a one-element list. -/
def nodeToString : Node → List Str
  | node@(.mk _ _ _ children _) =>
    if node.type ≠ "element".data then [mdToString node]
    else if !(isWhiteListed node) then []
    else if node.tag = "p".data then
      let parsed := mdToString node
      if parsed.isEmpty then [] else [parsed]
    else if node.tag = "tr".data then
      let joined := List.intercalate [' '] (trCells children)
      if joined.isEmpty then [] else [joined]
    else
      nodeListToString children

/-- The reduce over children in the default branch of `_nodeToString`. -/
def nodeListToString : List Node → List Str
  | [] => []
  | n :: rest =>
    let parsed := nodeToString n
    (if parsed.isEmpty then [] else parsed) ++ nodeListToString rest

end

example :
    mdToString (.mk "element".data "p".data ⟨[], none⟩
      [.mk "text".data [] ⟨[], none⟩ [] "hi".data] []) = "hi".data := by decide

example : substrJS "abcde".data 1 3 = "bcd".data := by decide

example :
    marksText (positionToMarks [(5, 9)] (some "Some different content".data)) =
      "Some different content".data := by decide

example :
    positionToMarks [(5, 9)] (some "Some different content".data) =
      [⟨MarkType.raw, some "Some ".data⟩,
       ⟨MarkType.mark, some "different".data⟩,
       ⟨MarkType.raw, some " content".data⟩] := by decide

end Datastore

namespace Datastore

/-- One Section of the registry (`Index.docs` values). -/
structure Doc where
  title : Str
  nodes : List Str
  url : Str
deriving DecidableEq, Repr

/-- A JS object used as a string-keyed map, in key insertion order. -/
abbrev AList (α : Type) := List (Str × α)

/-- Object property read: first entry with the key. -/
def alistFind {α : Type} : AList α → Str → Option α
  | [], _ => none
  | (k, v) :: rest, key => if k = key then some v else alistFind rest key

/-- Object property write: replace in place, or append a new key at the
end, exactly as JS object/Map insertion order behaves. -/
def alistSet {α : Type} : AList α → Str → α → AList α
  | [], key, v => [(key, v)]
  | (k, w) :: rest, key, v =>
    if k = key then (k, v) :: rest else (k, w) :: alistSet rest key v

/-- `Map.delete`: drop the entries with the key. -/
def alistErase {α : Type} : AList α → Str → AList α
  | [], _ => []
  | (k, w) :: rest, key =>
    if k = key then alistErase rest key else (k, w) :: alistErase rest key

/-- The Section registry `Index.docs`: url keys to Sections. -/
abbrev Docs := AList Doc

/-- Failures `Index.addDoc` can raise synchronously: the three `ow`
validations, or a JS `TypeError` from reading `.props` of `children[0]`
of a non-`h1` heading that has no children. -/
inductive AddDocError where
  | invalidInput
  | typeError
deriving DecidableEq, Repr

/-- One iteration of the `content.children.map` walk in `Index.addDoc`,
threading the current `sectionUrl` and the `docs` registry. -/
def addDocChild (permalink : Str) (state : Option Str × Docs) (child : Node) :
    Except AddDocError (Option Str × Docs) :=
  if isHeading child then
    match (if child.tag = "h1".data then some permalink else none) with
    | some sectionUrl =>
      Except.ok (some sectionUrl,
        alistSet state.2 sectionUrl ⟨mdToString child, [], sectionUrl⟩)
    | none =>
      match child.children.head? with
      | none => Except.error AddDocError.typeError
      | some first =>
        let sectionUrl := permalink ++ (first.props.href.getD "undefined".data)
        Except.ok (some sectionUrl,
          alistSet state.2 sectionUrl ⟨mdToString child, [], sectionUrl⟩)
  else
    match state.1 with
    | some sectionUrl =>
      if sectionUrl.isEmpty then Except.ok state
      else
        match alistFind state.2 sectionUrl with
        | some doc =>
          let parsed := nodeToString child
          if parsed.isEmpty then Except.ok state
          else
            Except.ok (state.1,
              alistSet state.2 sectionUrl ⟨doc.title, doc.nodes ++ parsed, doc.url⟩)
        | none => Except.ok state
    | none => Except.ok state

/-- The root content object: `none` models a JS object without a
`children` key. -/
structure Content where
  children : Option (List Node)

/-- `Index.addDoc content permalink` acting on a registry `docs`: the three
`ow` validations, then the sectionizing walk over the children. -/
def addDoc (content : Content) (permalink : Str) (docs : Docs) :
    Except AddDocError Docs :=
  match content.children with
  | none => Except.error AddDocError.invalidInput
  | some children =>
    if children.isEmpty then Except.error AddDocError.invalidInput
    else if permalink.isEmpty then Except.error AddDocError.invalidInput
    else do
      let st ← children.foldlM (addDocChild permalink) (none, docs)
      pure st.2

/-- The synthetic reference `url@lvl{n}` used by `Index.save` and parsed
back by `Search._getUrlAndNodeIndex`. -/
def mkRef (url : Str) (n : Nat) : Str :=
  url ++ "@lvl".data ++ (Nat.repr n).data

/-- The index entries `Index.save` registers for one Section: the title at
`url@lvl0`, then each node at `url@lvl{i+1}`, in order. -/
def docEntries (doc : Doc) : List (Str × Str) :=
  (mkRef doc.url 0, doc.title) ::
    doc.nodes.enum.map (fun p => (mkRef doc.url (p.1 + 1), p.2))

/-- All index entries `Index.save` registers, over the whole registry in
insertion order. -/
def saveEntries (docs : Docs) : List (Str × Str) :=
  docs.flatMap (fun kv => docEntries kv.2)

example :
    nodeToString (.mk "element".data "div".data ⟨[], none⟩
      [.mk "element".data "p".data ⟨[], none⟩
        [.mk "text".data [] ⟨[], none⟩ [] "hi".data] []] []) = ["hi".data] := by decide

example : mkRef "/hello".data 2 = "/hello@lvl2".data := by decide

/-- C4 (confirmed): for every Section, `Index.save` registers exactly
`1 + len(nodes)` index entries: the first carries reference `url@lvl0` and
the title as content, and for each `i < len(nodes)` the entry at position
`i + 1` carries reference `url@lvl{i+1}` and `nodes[i]` as content. -/
theorem c4_index_entries (doc : Doc) :
    (docEntries doc).length = 1 + doc.nodes.length ∧
    (docEntries doc)[0]? = some (mkRef doc.url 0, doc.title) ∧
    ∀ i : Nat, (docEntries doc)[i + 1]? =
      (doc.nodes[i]?).map (fun content => (mkRef doc.url (i + 1), content)) := by
  refine ⟨?_, by simp [docEntries], ?_⟩
  · simp [docEntries, List.enum, List.enumFrom_length, Nat.add_comm]
  · intro i
    simp only [docEntries, List.getElem?_cons_succ, List.getElem?_map, List.enum,
      List.getElem?_enumFrom, Option.map_map]
    cases doc.nodes[i]? <;> simp

/-- Decidable equality for `Except` results, for concrete evaluation. -/
instance exceptDecEq {e a : Type} [DecidableEq e] [DecidableEq a] :
    DecidableEq (Except e a)
  | .error x, .error y =>
    if h : x = y then .isTrue (by rw [h]) else .isFalse (by intro hx; cases hx; exact h rfl)
  | .error _, .ok _ => .isFalse (by intro hx; cases hx)
  | .ok _, .error _ => .isFalse (by intro hx; cases hx)
  | .ok x, .ok y =>
    if h : x = y then .isTrue (by rw [h]) else .isFalse (by intro hx; cases hx; exact h rfl)

/-- The apostrophe character. -/
def apos : Char := Char.ofNat 39

/-- A parser text node. -/
def textNode (s : Str) : Node :=
  .mk "text".data [] ⟨[], none⟩ [] s

/-- Modelled from the spec: the markdown parser (an external collaborator,
not part of this repository) attaches a slug anchor to each heading as its
first child, an `a` element whose `props.href` is `#` plus the slug, with
no text of its own; the heading text follows as a sibling text node.
`addDoc` reads exactly `child.children[0].props.href` from this shape. -/
def anchorNode (href : Str) : Node :=
  .mk "element".data "a".data ⟨[], some href⟩ [] []

/-- A parsed heading: anchor first, then the heading text. -/
def headingNode (tag : Str) (href : Str) (titleText : Str) : Node :=
  .mk "element".data tag ⟨[], none⟩ [anchorNode href, textNode titleText] []

/-- A parsed paragraph with a single text child. -/
def paraNode (s : Str) : Node :=
  .mk "element".data "p".data ⟨[], none⟩ [textNode s] []

/-- The body text of section 2 in the C6 scenario. -/
def sec2Body : Str :=
  "Here".data ++ [apos] ++ "s the section 2 content".data

/-- The C6 scenario document, as parsed by the markdown collaborator. -/
def helloContent : Content :=
  ⟨some
    [headingNode "h1".data "#hello-world".data "Hello world".data,
     paraNode "This is the first paragraph".data,
     headingNode "h2".data "#this-is-section-2".data "This is section 2".data,
     paraNode sec2Body]⟩

/-- C6 (confirmed): the scenario document indexed under permalink `/hello`
yields exactly the two Sections, the `h1` section keyed by the bare
permalink and the `h2` section keyed by permalink plus the node-supplied
anchor. -/
theorem c6_heading_segmentation :
    addDoc helloContent "/hello".data [] = Except.ok
      [("/hello".data,
        ⟨"Hello world".data, ["This is the first paragraph".data], "/hello".data⟩),
       ("/hello#this-is-section-2".data,
        ⟨"This is section 2".data, [sec2Body], "/hello#this-is-section-2".data⟩)] := by
  decide

/-- Every branch of one `addDoc` walk step succeeds provided a non-`h1`
heading child has a first child to read the anchor from. -/
theorem addDocChild_ok (permalink : Str) (st : Option Str × Docs) (child : Node)
    (h : isHeading child = true → child.tag ≠ "h1".data →
      child.children.isEmpty = false) :
    ∃ st2, addDocChild permalink st child = Except.ok st2 := by
  unfold addDocChild
  by_cases hh : isHeading child
  · simp only [hh, if_true]
    by_cases htag : child.tag = "h1".data
    · simp [htag]
    · simp only [htag, if_false]
      cases hch : child.children.head? with
      | none =>
        have : child.children = [] := List.head?_eq_none_iff.mp hch
        rw [this] at h
        simp [htag, hh] at h
      | some first => exact ⟨_, rfl⟩
  · simp only [Bool.not_eq_true] at hh
    simp only [hh, Bool.false_eq_true, if_false]
    cases st.1 with
    | none => exact ⟨_, rfl⟩
    | some u =>
      by_cases hu : u.isEmpty
      · simp [hu]
      · simp only [hu, Bool.false_eq_true, if_false]
        cases alistFind st.2 u with
        | none => exact ⟨_, rfl⟩
        | some doc =>
          by_cases hp : (nodeToString child).isEmpty
          · simp [hp]
          · simp [hp]

/-- The `addDoc` walk over a child list succeeds whenever every non-`h1`
heading child has at least one child. -/
theorem addDoc_fold_ok (permalink : Str) :
    ∀ (children : List Node) (st : Option Str × Docs),
      (∀ child ∈ children, isHeading child = true → child.tag ≠ "h1".data →
        child.children.isEmpty = false) →
      ∃ st2, children.foldlM (addDocChild permalink) st = Except.ok st2 := by
  intro children
  induction children with
  | nil =>
    intro st _
    exact ⟨st, rfl⟩
  | cons c rest ih =>
    intro st h
    obtain ⟨st1, hst1⟩ := addDocChild_ok permalink st c (h c (by simp))
    obtain ⟨st2, hst2⟩ := ih st1 (fun x hx => h x (by simp [hx]))
    exact ⟨st2, by rw [List.foldlM_cons, hst1]; exact hst2⟩

/-- C8 (amended): `addDoc` fails synchronously with the invalid-input error
exactly in the three `ow`-validated cases (missing `children` key, empty
`children` array, empty permalink); for well-formed inputs in which every
non-`h1` heading child has at least one child of its own it does not throw.
(A non-`h1` heading with no children passes the validations but raises a
`TypeError` from `child.children[0].props`.) -/
theorem c8_validation (content : Content) (permalink : Str) (docs : Docs) :
    ((content.children = none ∨ content.children = some [] ∨ permalink = []) →
      addDoc content permalink docs = Except.error AddDocError.invalidInput) ∧
    (∀ children, content.children = some children → children ≠ [] → permalink ≠ [] →
      (∀ child ∈ children, isHeading child = true → child.tag ≠ "h1".data →
        child.children.isEmpty = false) →
      ∃ result, addDoc content permalink docs = Except.ok result) := by
  constructor
  · intro hbad
    unfold addDoc
    rcases hx : content.children with - | children
    · rfl
    · rcases hbad with hnone | hnil | hperm
      · rw [hx] at hnone; cases hnone
      · rw [hx] at hnil
        cases hnil
        rfl
      · subst hperm
        cases children with
        | nil => rfl
        | cons c cs => rfl
  · intro children hx hne hperm hheads
    unfold addDoc
    rw [hx]
    have hce : children.isEmpty = false := by
      cases children with
      | nil => exact absurd rfl hne
      | cons c cs => rfl
    have hpe : permalink.isEmpty = false := by
      cases permalink with
      | nil => exact absurd rfl hperm
      | cons c cs => rfl
    simp only [hce, hpe, Bool.false_eq_true, if_false]
    obtain ⟨st2, hst2⟩ := addDoc_fold_ok permalink children (none, docs) hheads
    exact ⟨st2.2, by rw [hst2]; rfl⟩

/-- C8 counterexample: a content tree that passes all three validations
(non-empty `children`, non-empty permalink) but whose single child is an
`h2` heading with no children: `addDoc` throws a `TypeError`, not the
invalid-input error, so it does throw on a well-formed input. -/
theorem c8_counterexample :
    addDoc ⟨some [Node.mk "element".data "h2".data ⟨[], none⟩ [] []]⟩
        "/hello".data [] = Except.error AddDocError.typeError ∧
      AddDocError.typeError ≠ AddDocError.invalidInput := by
  decide

theorem c8_validation_witness :
    addDoc ⟨none⟩ "/x".data [] = Except.error AddDocError.invalidInput ∧
    ∃ result, addDoc helloContent "/hello".data [] = Except.ok result :=
  ⟨(c8_validation ⟨none⟩ "/x".data []).1 (Or.inl rfl),
   (c8_validation helloContent "/hello".data []).2
     _ rfl (by simp) (by decide) (by decide)⟩

/-- `ref.split` on the literal separator `@lvl`, scanning left to right with
non-overlapping matches, exactly as JS `String.prototype.split` with a
string separator. -/
def splitOnLvl : Str → List Str
  | '@' :: 'l' :: 'v' :: 'l' :: rest => [] :: splitOnLvl rest
  | c :: rest =>
    match splitOnLvl rest with
    | [] => [[c]]
    | part :: parts => (c :: part) :: parts
  | [] => [[]]

/-- JS `Number(x)` restricted to the shapes the code can produce: `none`
models `undefined` in and `NaN` out; the empty string is `0`; a plain
decimal digit string is its value; anything else is `NaN`. -/
def jsNumber : Option Str → Option Nat
  | none => none
  | some s =>
    if s.isEmpty then some 0
    else if s.all Char.isDigit then
      some (s.foldl (fun acc c => acc * 10 + (c.toNat - 48)) 0)
    else none

/-- `Search._getUrlAndNodeIndex`: split the ref on `@lvl` and take the
first part as url, the `Number` of the second as node index. -/
def getUrlAndNodeIndex (ref : Str) : Str × Option Nat :=
  let parts := splitOnLvl ref
  (parts.headD [], jsNumber parts[1]?)

/-- One flat lunr search result: synthetic ref, score, match metadata. -/
structure FlatMatch where
  ref : Str
  score : Int
  metadata : Option Metadata
deriving DecidableEq, Repr

/-- The title slot of a grouped result; initialised by `search` to
`⟨-1, 0, null⟩` and overwritten by a `lvl0` match. -/
structure TitleSlot where
  index : Int
  score : Int
  metadata : Option Metadata
deriving DecidableEq, Repr

/-- One entry of a group's `matchData` array: node index `N - 1`, score
and metadata of the flat match (a `NaN` index stays `none`). -/
structure MatchItem where
  index : Option Nat
  score : Int
  metadata : Option Metadata
deriving DecidableEq, Repr

/-- One value of the `queryResults` object built by `search`. -/
structure Group where
  doc : Doc
  title : TitleSlot
  matchData : List MatchItem
deriving DecidableEq, Repr

abbrev Groups := AList Group

/-- JS `nodeIndex - 1` after parsing: `NaN` stays `NaN`. The branch below
is only reached with `nodeIndex ≠ 0`, so `Nat` subtraction is exact. -/
def nodeIndexMinusOne : Option Nat → Option Nat
  | none => none
  | some k => some (k - 1)

/-- The group-creation `if` of the `_.transform` in `Search.search`: a group
appears the first time a url is seen, provided `docs` knows the url. -/
def groupCreate (docs : Docs) (result : Groups) (url : Str) : Groups :=
  if (alistFind result url).isNone then
    match alistFind docs url with
    | some doc => alistSet result url ⟨doc, ⟨-1, 0, none⟩, []⟩
    | none => result
  else result

/-- One iteration of the `_.transform` in `Search.search`: create the group
on first sight of the url when `docs` knows it, then route the match into
the title slot (`N = 0`) or append it to `matchData` (otherwise). -/
def searchStep (docs : Docs) (result : Groups) (node : FlatMatch) : Groups :=
  let url := (getUrlAndNodeIndex node.ref).1
  let nodeIndex := (getUrlAndNodeIndex node.ref).2
  let result1 := groupCreate docs result url
  match alistFind result1 url with
  | none => result1
  | some g =>
    if nodeIndex = some 0 then
      alistSet result1 url ⟨g.doc, ⟨0, node.score, node.metadata⟩, g.matchData⟩
    else
      alistSet result1 url
        ⟨g.doc, g.title,
         g.matchData ++ [⟨nodeIndexMinusOne nodeIndex, node.score, node.metadata⟩]⟩

/-- The prefix of the flat lunr results the `_.transform` actually
processes: `limit = 0` means all of them, otherwise it stops when the
array index reaches `limit`. -/
def consumedMatches (limit : Nat) (results : List FlatMatch) : List FlatMatch :=
  if limit = 0 then results else results.take limit

/-- The grouping pass of `Search.search` over the consumed flat results. -/
def renestGroups (docs : Docs) (results : List FlatMatch) : Groups :=
  results.foldl (searchStep docs) []

/-- JS `doc.nodes[index]`: `undefined` when the index is `NaN` or out of
range. -/
def nodeAt (nodes : List Str) : Option Nat → Option Str
  | none => none
  | some i => nodes[i]?

/-- One element of the final result array of `Search.search`. -/
structure Hit where
  url : Str
  title : HighlightResult
  body : List HighlightResult
deriving DecidableEq, Repr

/-- The final mapping pass of `Search.search` over one group. -/
def hitOf (entry : Str × Group) : Hit :=
  ⟨entry.2.doc.url,
   nodeToMarks entry.2.title.score entry.2.title.metadata (some entry.2.doc.title),
   entry.2.matchData.map
     (fun m => nodeToMarks m.score m.metadata (nodeAt entry.2.doc.nodes m.index))⟩

/-- The pure result of `Search.search` given the docs registry and the flat
lunr results for the term. -/
def searchHits (docs : Docs) (results : List FlatMatch) (limit : Nat) : List Hit :=
  (renestGroups docs (consumedMatches limit results)).map hitOf

/-- A deserialized lunr index, modelled by its observable behaviour: the
flat matches it returns for a term (lunr itself is an external library). -/
abbrev TermIndex := Str → List FlatMatch

/-- One entry of `Search.indexesCache`. -/
structure CacheEntry where
  docs : Docs
  index : TermIndex
  mtime : Nat
  size : Nat

abbrev Cache := AList CacheEntry

/-- The parsed JSON of an index file on disk: either key may be missing
(falsy), in which case `loadIndex` raises and swallows `Invalid index`. -/
structure RawArtifact where
  docs : Option Docs
  index : Option TermIndex

/-- A file on disk: stat data plus its parsed content (`none` models an
unreadable or non-JSON file, for which `fs.readJSON` rejects). -/
structure DiskFile where
  mtime : Nat
  size : Nat
  content : Option RawArtifact

/-- The file system as seen by `Search`: `none` is a missing path. -/
abbrev Disk := Str → Option DiskFile

structure Stats where
  mtime : Nat
  size : Nat
deriving DecidableEq, Repr

/-- `Search.getStats`: stat the file, and return `(0, 0)` when stat
fails. -/
def getStats (disk : Disk) (filePath : Str) : Stats :=
  match disk filePath with
  | some f => ⟨f.mtime, f.size⟩
  | none => ⟨0, 0⟩

/-- `Search.loadIndex`: read and parse the file; on read failure, parse
failure, or a missing `docs`/`index` key the raised error is swallowed and
the cache is left untouched; otherwise the cache entry is replaced. -/
def loadIndex (disk : Disk) (cache : Cache) (indexPath : Str) (mtime size : Nat) :
    Cache :=
  match disk indexPath with
  | none => cache
  | some f =>
    match f.content with
    | none => cache
    | some raw =>
      match raw.docs, raw.index with
      | some docs, some ix => alistSet cache indexPath ⟨docs, ix, mtime, size⟩
      | some _, none => cache
      | none, some _ => cache
      | none, none => cache

/-- `Search.load`: reload through `loadIndex` when there is no cached entry
or the file is strictly newer or differs in size, then return the (possibly
updated) cache and its entry for the path. -/
def load (disk : Disk) (cache : Cache) (indexPath : Str) :
    Cache × Option CacheEntry :=
  let st := getStats disk indexPath
  let cache2 :=
    match alistFind cache indexPath with
    | none => loadIndex disk cache indexPath st.mtime st.size
    | some cached =>
      if st.mtime > cached.mtime ∨ st.size ≠ cached.size then
        loadIndex disk cache indexPath st.mtime st.size
      else cache
  (cache2, alistFind cache2 indexPath)

/-- `Search.revalidateIndex`: evict the entry when the stat-reported mtime
is `0` (which is what a failed stat reports). -/
def revalidateIndex (disk : Disk) (cache : Cache) (filePath : Str) : Cache :=
  if (getStats disk filePath).mtime = 0 then alistErase cache filePath else cache

/-- `Search.revalidate`: sweep every cached path. -/
def revalidate (disk : Disk) (cache : Cache) : Cache :=
  (cache.map Prod.fst).foldl (revalidateIndex disk) cache

/-- The value `Search.search` resolves with. A cached entry always carries
both `docs` and `index` by construction of `loadIndex`, so the JS guard
`!index || !index.index || !index.docs` reduces to the entry being absent.
The fire-and-forget `revalidate()` only mutates the cache and cannot
change this value. -/
def searchResult (disk : Disk) (cache : Cache) (indexPath : Str) (term : Str)
    (limit : Nat) : List Hit :=
  match (load disk cache indexPath).2 with
  | none => []
  | some entry => searchHits entry.docs (entry.index term) limit

example : splitOnLvl "/hello@lvl2".data = ["/hello".data, "2".data] := by decide

example : getUrlAndNodeIndex "/hello@lvl12".data = ("/hello".data, some 12) := by decide

theorem alistFind_set_self {α : Type} (l : AList α) (k : Str) (v : α) :
    alistFind (alistSet l k v) k = some v := by
  induction l with
  | nil => simp [alistSet, alistFind]
  | cons p rest ih =>
    by_cases h : p.1 = k
    · simp [alistSet, alistFind, h]
    · simp [alistSet, alistFind, h, ih]

theorem alistFind_set_ne {α : Type} (l : AList α) (k q : Str) (v : α) (h : k ≠ q) :
    alistFind (alistSet l k v) q = alistFind l q := by
  induction l with
  | nil => simp [alistSet, alistFind, h]
  | cons p rest ih =>
    by_cases hp : p.1 = k
    · subst hp
      simp [alistSet, alistFind, h]
    · simp [alistSet, alistFind, hp, ih]

theorem alistFind_erase_self {α : Type} (l : AList α) (k : Str) :
    alistFind (alistErase l k) k = none := by
  induction l with
  | nil => simp [alistErase, alistFind]
  | cons p rest ih =>
    by_cases h : p.1 = k
    · simp [alistErase, h, ih]
    · simp [alistErase, alistFind, h, ih]

theorem alistFind_erase_ne {α : Type} (l : AList α) (k q : Str) (h : k ≠ q) :
    alistFind (alistErase l k) q = alistFind l q := by
  induction l with
  | nil => simp [alistErase]
  | cons p rest ih =>
    by_cases hp : p.1 = k
    · subst hp
      simp [alistErase, alistFind, h, ih]
    · simp [alistErase, alistFind, hp, ih]

/-- `revalidateIndex` never adds an entry. -/
theorem revalidateIndex_preserves_none (disk : Disk) (cache : Cache)
    (p q : Str) (h : alistFind cache q = none) :
    alistFind (revalidateIndex disk cache p) q = none := by
  unfold revalidateIndex
  by_cases hst : (getStats disk p).mtime = 0
  · simp only [hst, if_true]
    by_cases hpq : p = q
    · subst hpq
      exact alistFind_erase_self cache p
    · rw [alistFind_erase_ne cache p q hpq]
      exact h
  · simpa [hst] using h

/-- A fold of `revalidateIndex` steps never adds an entry. -/
theorem revalidate_fold_preserves_none (disk : Disk) (q : Str) :
    ∀ (paths : List Str) (cache : Cache), alistFind cache q = none →
      alistFind (paths.foldl (revalidateIndex disk) cache) q = none := by
  intro paths
  induction paths with
  | nil =>
    intro cache h
    exact h
  | cons p rest ih =>
    intro cache h
    exact ih (revalidateIndex disk cache p) (revalidateIndex_preserves_none disk cache p q h)

/-- After folding `revalidateIndex` over a path list containing `q`, the
entry for a deleted file `q` is gone. -/
theorem revalidate_fold_evicts (disk : Disk) (q : Str) (hdel : disk q = none) :
    ∀ (paths : List Str) (cache : Cache), q ∈ paths →
      alistFind (paths.foldl (revalidateIndex disk) cache) q = none := by
  intro paths
  induction paths with
  | nil =>
    intro cache h
    cases h
  | cons p rest ih =>
    intro cache hmem
    simp only [List.foldl_cons]
    rcases List.mem_cons.mp hmem with heq | hmem2
    · subst heq
      refine revalidate_fold_preserves_none disk q rest (revalidateIndex disk cache q) ?_
      have hst : (getStats disk q).mtime = 0 := by
        unfold getStats
        rw [hdel]
      unfold revalidateIndex
      rw [hst]
      simp only [if_pos]
      exact alistFind_erase_self cache q
    · exact ih (revalidateIndex disk cache p) hmem2

/-- A present entry's key is among the cached paths. -/
theorem alistFind_isSome_mem_keys {α : Type} (l : AList α) (q : Str)
    (h : (alistFind l q).isSome = true) : q ∈ l.map Prod.fst := by
  induction l with
  | nil => exact absurd h (by simp [alistFind])
  | cons p rest ih =>
    rw [List.map_cons]
    by_cases hp : p.1 = q
    · exact List.mem_cons.mpr (Or.inl hp.symm)
    · have h2 : (alistFind rest q).isSome = true := by
        simpa [alistFind, hp] using h
      exact List.mem_cons.mpr (Or.inr (ih h2))

/-- C7 (confirmed): `revalidate` sweeps every cached path, and after it
completes the entry of every path whose stat fails (the file was deleted)
has been evicted from the cache. -/
theorem c7_revalidate_evicts (disk : Disk) (cache : Cache) (filePath : Str)
    (hcached : (alistFind cache filePath).isSome = true)
    (hdeleted : disk filePath = none) :
    alistFind (revalidate disk cache) filePath = none := by
  unfold revalidate
  exact revalidate_fold_evicts disk filePath hdeleted (cache.map Prod.fst) cache
    (alistFind_isSome_mem_keys cache filePath hcached)

theorem c7_revalidate_evicts_witness :
    alistFind
      (revalidate (fun _ => none)
        [("idx".data, (⟨[], fun _ => [], 5, 10⟩ : CacheEntry))])
      "idx".data = none :=
  c7_revalidate_evicts (fun _ => none)
    [("idx".data, (⟨[], fun _ => [], 5, 10⟩ : CacheEntry))] "idx".data
    (by rfl) (by rfl)

/-- A deserialized index that matches nothing, for concrete scenarios. -/
def emptyIndex : TermIndex := fun _ => []

/-- A deserialized index returning one `lvl0` match, for scenarios. -/
def hitIndex : TermIndex := fun _ => [⟨"u@lvl0".data, 1, none⟩]

/-- Registry cached before the on-disk file changed. -/
def docsOld : Docs := [("u".data, ⟨"Old".data, [], "u".data⟩)]

/-- Registry sitting in the on-disk file now. -/
def docsNew : Docs := [("u".data, ⟨"New".data, [], "u".data⟩)]

def idxPath : Str := "idx".data

/-- A cache holding one entry for `idxPath`, fingerprint `(5, 10)`. -/
def cacheC3 : Cache := [(idxPath, ⟨docsOld, emptyIndex, 5, 10⟩)]

/-- Disk for the C3 counterexample: the file exists with an older mtime,
the same size, and valid content differing from the cached docs. -/
def diskC3 : Disk := fun p =>
  if p = idxPath then some ⟨3, 10, some ⟨some docsNew, some emptyIndex⟩⟩ else none

/-- Disk whose stats equal the cached fingerprint exactly. -/
def diskC3b : Disk := fun p =>
  if p = idxPath then some ⟨5, 10, some ⟨some docsNew, some emptyIndex⟩⟩ else none

/-- Disk whose file is strictly newer and of a different size. -/
def diskC3c : Disk := fun p =>
  if p = idxPath then some ⟨7, 11, some ⟨some docsNew, some emptyIndex⟩⟩ else none

/-- C3 counterexample: the cached fingerprint is `(5, 10)` and the file now
reports `(3, 10)` — the fingerprints differ in the mtime component — yet
`load` neither reloads the file nor replaces the entry, because the code
compares with `lastWriteTime > cached.mtime`, not with inequality. -/
theorem c3_counterexample :
    (getStats diskC3 idxPath).mtime = 3 ∧
    (alistFind cacheC3 idxPath).map CacheEntry.mtime = some 5 ∧
    (getStats diskC3 idxPath).size = 10 ∧
    (alistFind cacheC3 idxPath).map CacheEntry.size = some 10 ∧
    (load diskC3 cacheC3 idxPath).2.map CacheEntry.docs = some docsOld ∧
    ((load diskC3 cacheC3 idxPath).1.map (fun kv => (kv.1, kv.2.docs))) =
      [(idxPath, docsOld)] ∧
    docsOld ≠ docsNew := by
  refine ⟨rfl, rfl, rfl, rfl, rfl, rfl, by decide⟩

/-- C3 (amended): with a cached entry, `load` reuses it untouched when the
file is not strictly newer and the size matches; when the file is strictly
newer or differs in size and holds a valid artifact, the cache entry is
replaced by the freshly loaded one carrying the new fingerprint. -/
theorem c3_fingerprint_refresh (disk : Disk) (cache : Cache) (indexPath : Str)
    (cached : CacheEntry) (h : alistFind cache indexPath = some cached) :
    ((getStats disk indexPath).mtime ≤ cached.mtime ∧
        (getStats disk indexPath).size = cached.size →
      load disk cache indexPath = (cache, some cached)) ∧
    (∀ f raw docs ix, disk indexPath = some f → f.content = some raw →
      raw.docs = some docs → raw.index = some ix →
      ((getStats disk indexPath).mtime > cached.mtime ∨
        (getStats disk indexPath).size ≠ cached.size) →
      (load disk cache indexPath).2 = some ⟨docs, ix, f.mtime, f.size⟩ ∧
      alistFind (load disk cache indexPath).1 indexPath =
        some ⟨docs, ix, f.mtime, f.size⟩) := by
  constructor
  · intro hsame
    unfold load
    simp only [h]
    rw [if_neg (by push_neg; omega)]
    exact Prod.ext rfl (by rw [h])
  · intro f raw docs ix hf hraw hdocs hix hdiff
    obtain ⟨fm, fs, fc⟩ := f
    obtain ⟨rd, rix⟩ := raw
    have hfc : fc = some (⟨rd, rix⟩ : RawArtifact) := hraw
    subst hfc
    have hrd : rd = some docs := hdocs
    subst hrd
    have hrx : rix = some ix := hix
    subst hrx
    have hst : getStats disk indexPath = ⟨fm, fs⟩ := by
      unfold getStats
      rw [hf]
    have hload : loadIndex disk cache indexPath (getStats disk indexPath).mtime
        (getStats disk indexPath).size =
        alistSet cache indexPath ⟨docs, ix, fm, fs⟩ := by
      unfold loadIndex
      rw [hst, hf]
    unfold load
    simp only [h]
    rw [if_pos hdiff, hload]
    exact ⟨alistFind_set_self cache indexPath _, alistFind_set_self cache indexPath _⟩

theorem c3_fingerprint_refresh_witness :
    load diskC3b cacheC3 idxPath =
      (cacheC3, some ⟨docsOld, emptyIndex, 5, 10⟩) ∧
    (load diskC3c cacheC3 idxPath).2 = some ⟨docsNew, emptyIndex, 7, 11⟩ :=
  ⟨(c3_fingerprint_refresh diskC3b cacheC3 idxPath ⟨docsOld, emptyIndex, 5, 10⟩ rfl).1
      ⟨by decide, by decide⟩,
   ((c3_fingerprint_refresh diskC3c cacheC3 idxPath ⟨docsOld, emptyIndex, 5, 10⟩ rfl).2
      ⟨7, 11, some ⟨some docsNew, some emptyIndex⟩⟩ ⟨some docsNew, some emptyIndex⟩
      docsNew emptyIndex rfl rfl rfl rfl (Or.inl (by decide))).1⟩

/-- The index artifact at a path is unusable: the file is absent, its
content unreadable, or the parsed JSON misses the `docs` or `index` key. -/
def invalidArtifact (disk : Disk) (p : Str) : Bool :=
  match disk p with
  | none => true
  | some f =>
    match f.content with
    | none => true
    | some raw => raw.docs.isNone || raw.index.isNone

/-- A failed `loadIndex` swallows the error and leaves the cache as is. -/
theorem loadIndex_invalid (disk : Disk) (cache : Cache) (p : Str) (m sz : Nat)
    (hbad : invalidArtifact disk p = true) :
    loadIndex disk cache p m sz = cache := by
  unfold invalidArtifact at hbad
  unfold loadIndex
  rcases hd : disk p with - | ⟨fm, fs, fc⟩
  · rfl
  · rw [hd] at hbad
    rcases fc with - | ⟨rd, rix⟩
    · rfl
    · rcases rd with - | d
      · rcases rix with - | ix
        · rfl
        · rfl
      · rcases rix with - | ix
        · rfl
        · simp at hbad

/-- C5 (amended): when the cache holds no entry for the path and the index
artifact is absent, unreadable or missing its `docs`/`index` keys, the
cache-based search resolves to the empty array; the model is a total
function, so no rejection can occur. -/
theorem c5_missing_index_empty (disk : Disk) (cache : Cache) (indexPath term : Str)
    (limit : Nat) (hnone : alistFind cache indexPath = none)
    (hbad : invalidArtifact disk indexPath = true) :
    searchResult disk cache indexPath term limit = [] := by
  unfold searchResult load
  simp only [hnone]
  rw [loadIndex_invalid disk cache indexPath _ _ hbad, hnone]

theorem c5_missing_index_empty_witness :
    searchResult (fun _ => none) [] idxPath "q".data 0 = [] :=
  c5_missing_index_empty (fun _ => none) [] idxPath "q".data 0 rfl rfl

/-- Cache for C5/C9 scenarios: one entry whose index yields a match. -/
def cacheC5 : Cache := [(idxPath, ⟨docsOld, hitIndex, 5, 10⟩)]

/-- A disk with no files at all. -/
def diskNone : Disk := fun _ => none

/-- C5 counterexample: the path does not exist on disk, yet search does not
resolve to the empty array, because the cache still holds the entry loaded
earlier and the failed reload leaves it in place (the claim as stated omits
the warm-cache case, which C9 documents as intended behaviour). -/
theorem c5_counterexample :
    diskNone idxPath = none ∧
    searchResult diskNone cacheC5 idxPath "old".data 0 ≠ [] := by
  exact ⟨rfl, by decide⟩

/-- Disk for C9: the file exists but its content is unreadable. -/
def diskBad : Disk := fun p =>
  if p = idxPath then some ⟨9, 99, none⟩ else none

/-- C9 (confirmed): a failed artifact load leaves the cache map unchanged
for any fingerprint arguments, and with a previously cached entry and the
on-disk file replaced by invalid content, search still answers from the
last successfully loaded entry instead of failing or going empty. -/
theorem c9_failed_load_preserves (disk : Disk) (cache : Cache)
    (indexPath term : Str) (limit : Nat) (cached : CacheEntry)
    (h : alistFind cache indexPath = some cached)
    (hbad : invalidArtifact disk indexPath = true) :
    (∀ mtime size, loadIndex disk cache indexPath mtime size = cache) ∧
    searchResult disk cache indexPath term limit =
      searchHits cached.docs (cached.index term) limit := by
  refine ⟨fun m sz => loadIndex_invalid disk cache indexPath m sz hbad, ?_⟩
  unfold searchResult load
  simp only [h]
  by_cases hcond : (getStats disk indexPath).mtime > cached.mtime ∨
      (getStats disk indexPath).size ≠ cached.size
  · rw [if_pos hcond, loadIndex_invalid disk cache indexPath _ _ hbad, h]
  · rw [if_neg hcond, h]

theorem c9_failed_load_preserves_witness :
    (∀ mtime size, loadIndex diskBad cacheC5 idxPath mtime size = cacheC5) ∧
    searchResult diskBad cacheC5 idxPath "q".data 0 =
      searchHits docsOld (hitIndex "q".data) 0 :=
  c9_failed_load_preserves diskBad cacheC5 idxPath "q".data 0
    ⟨docsOld, hitIndex, 5, 10⟩ rfl rfl

/-- The body match items a url collects from a flat result list, in arrival
order: every match whose ref parses to this url with `N ≠ 0`,
keyed by `N - 1`. -/
def bodyItemsOf (url : Str) (ms : List FlatMatch) : List MatchItem :=
  ms.filterMap (fun m =>
    let parsed := getUrlAndNodeIndex m.ref
    if parsed.1 = url ∧ parsed.2 ≠ some 0 then
      some ⟨nodeIndexMinusOne parsed.2, m.score, m.metadata⟩
    else none)

/-- The title slot of a url after folding a flat result list: the last
`lvl0` match for the url wins; with no such match the slot is untouched. -/
def titleSlotFold (url : Str) (t : TitleSlot) (ms : List FlatMatch) : TitleSlot :=
  ms.foldl
    (fun t m =>
      let parsed := getUrlAndNodeIndex m.ref
      if parsed.1 = url ∧ parsed.2 = some 0 then ⟨0, m.score, m.metadata⟩ else t)
    t

theorem groupCreate_other (docs : Docs) (gs : Groups) (url q : Str) (h : url ≠ q) :
    alistFind (groupCreate docs gs url) q = alistFind gs q := by
  unfold groupCreate
  by_cases h0 : (alistFind gs url).isNone
  · simp only [h0, if_true]
    cases alistFind docs url with
    | none => rfl
    | some doc => exact alistFind_set_ne gs url q _ h
  · simp only [h0, Bool.false_eq_true, if_false]

/-- A step for a match of a different url does not touch this url's
group. -/
theorem searchStep_other (docs : Docs) (gs : Groups) (m : FlatMatch) (q : Str)
    (h : (getUrlAndNodeIndex m.ref).1 ≠ q) :
    alistFind (searchStep docs gs m) q = alistFind gs q := by
  unfold searchStep
  dsimp only
  have h1 := groupCreate_other docs gs (getUrlAndNodeIndex m.ref).1 q h
  cases hfind : alistFind (groupCreate docs gs (getUrlAndNodeIndex m.ref).1)
      (getUrlAndNodeIndex m.ref).1 with
  | none => exact h1
  | some g =>
    by_cases hn : (getUrlAndNodeIndex m.ref).2 = some 0
    · simp only [hn, if_true]
      rw [alistFind_set_ne _ _ _ _ h]
      exact h1
    · simp only [hn, if_false]
      rw [alistFind_set_ne _ _ _ _ h]
      exact h1

/-- A step for a match of a url whose group already exists skips creation
and updates the group in place. -/
theorem searchStep_hit (docs : Docs) (gs : Groups) (m : FlatMatch) (g : Group)
    (hg : alistFind gs (getUrlAndNodeIndex m.ref).1 = some g) :
    searchStep docs gs m =
      if (getUrlAndNodeIndex m.ref).2 = some 0 then
        alistSet gs (getUrlAndNodeIndex m.ref).1
          ⟨g.doc, ⟨0, m.score, m.metadata⟩, g.matchData⟩
      else
        alistSet gs (getUrlAndNodeIndex m.ref).1
          ⟨g.doc, g.title,
           g.matchData ++
             [⟨nodeIndexMinusOne (getUrlAndNodeIndex m.ref).2, m.score, m.metadata⟩]⟩ := by
  unfold searchStep groupCreate
  simp only [hg, Option.isNone_some, Bool.false_eq_true, if_false]

/-- A step for a match of a url with no group yet but a known doc creates
the group and routes the match into it in the same step. -/
theorem searchStep_create (docs : Docs) (gs : Groups) (m : FlatMatch) (doc : Doc)
    (hg : alistFind gs (getUrlAndNodeIndex m.ref).1 = none)
    (hdoc : alistFind docs (getUrlAndNodeIndex m.ref).1 = some doc) :
    searchStep docs gs m =
      if (getUrlAndNodeIndex m.ref).2 = some 0 then
        alistSet (alistSet gs (getUrlAndNodeIndex m.ref).1 ⟨doc, ⟨-1, 0, none⟩, []⟩)
          (getUrlAndNodeIndex m.ref).1 ⟨doc, ⟨0, m.score, m.metadata⟩, []⟩
      else
        alistSet (alistSet gs (getUrlAndNodeIndex m.ref).1 ⟨doc, ⟨-1, 0, none⟩, []⟩)
          (getUrlAndNodeIndex m.ref).1
          ⟨doc, ⟨-1, 0, none⟩,
           [⟨nodeIndexMinusOne (getUrlAndNodeIndex m.ref).2, m.score, m.metadata⟩]⟩ := by
  unfold searchStep groupCreate
  simp only [hg, Option.isNone_none, if_true, hdoc,
    alistFind_set_self gs (getUrlAndNodeIndex m.ref).1 ⟨doc, ⟨-1, 0, none⟩, []⟩]
  simp only [List.nil_append]

/-- Folding the grouping step over flat matches, when the url's group
already exists: the title slot is folded and the body items are appended in
arrival order. -/
theorem searchStep_fold_existing (docs : Docs) (url : Str) :
    ∀ (ms : List FlatMatch) (gs : Groups) (g : Group),
      alistFind gs url = some g →
      alistFind (ms.foldl (searchStep docs) gs) url =
        some ⟨g.doc, titleSlotFold url g.title ms, g.matchData ++ bodyItemsOf url ms⟩ := by
  intro ms
  induction ms with
  | nil =>
    intro gs g hg
    simpa [titleSlotFold, bodyItemsOf] using hg
  | cons m ms ih =>
    intro gs g hg
    simp only [List.foldl_cons]
    by_cases hu : (getUrlAndNodeIndex m.ref).1 = url
    · have hstep := searchStep_hit docs gs m g (by rw [hu]; exact hg)
      by_cases hn : (getUrlAndNodeIndex m.ref).2 = some 0
      · rw [hstep, if_pos hn, hu]
        have hfind := alistFind_set_self gs url
          (⟨g.doc, ⟨0, m.score, m.metadata⟩, g.matchData⟩ : Group)
        rw [ih _ _ hfind]
        have htitle : titleSlotFold url g.title (m :: ms) =
            titleSlotFold url ⟨0, m.score, m.metadata⟩ ms := by
          unfold titleSlotFold
          simp only [List.foldl_cons, hu, hn, and_self, if_true]
        have hbody : bodyItemsOf url (m :: ms) = bodyItemsOf url ms := by
          unfold bodyItemsOf
          simp only [List.filterMap_cons, hu, hn]
          simp
        rw [htitle, hbody]
      · rw [hstep, if_neg hn, hu]
        have hfind := alistFind_set_self gs url
          (⟨g.doc, g.title, g.matchData ++
            [⟨nodeIndexMinusOne (getUrlAndNodeIndex m.ref).2, m.score, m.metadata⟩]⟩ : Group)
        rw [ih _ _ hfind]
        have htitle : titleSlotFold url g.title (m :: ms) =
            titleSlotFold url g.title ms := by
          unfold titleSlotFold
          simp only [List.foldl_cons, hu, hn, and_false, if_false]
        have hbody : bodyItemsOf url (m :: ms) =
            (⟨nodeIndexMinusOne (getUrlAndNodeIndex m.ref).2, m.score, m.metadata⟩ :
              MatchItem) :: bodyItemsOf url ms := by
          unfold bodyItemsOf
          simp only [List.filterMap_cons, hu, hn]
          rw [if_pos ⟨trivial, hn⟩]
        rw [htitle, hbody, List.append_assoc]
        simp
    · have hstep := searchStep_other docs gs m url hu
      rw [ih (searchStep docs gs m) g (by rw [hstep]; exact hg)]
      have htitle : titleSlotFold url g.title (m :: ms) =
          titleSlotFold url g.title ms := by
        unfold titleSlotFold
        simp only [List.foldl_cons, hu, false_and, if_false]
      have hbody : bodyItemsOf url (m :: ms) = bodyItemsOf url ms := by
        unfold bodyItemsOf
        simp only [List.filterMap_cons, hu]
        simp
      rw [htitle, hbody]

/-- Folding the grouping step when no group exists yet for a url known to
`docs`: the group appears exactly when some consumed match parses to the
url, and then carries the folded title slot (from its initial
`⟨-1, 0, null⟩`) and the body items in arrival order. -/
theorem searchStep_fold_fresh (docs : Docs) (url : Str) (doc : Doc)
    (hdoc : alistFind docs url = some doc) :
    ∀ (ms : List FlatMatch) (gs : Groups), alistFind gs url = none →
      alistFind (ms.foldl (searchStep docs) gs) url =
        (if ms.any (fun m => decide ((getUrlAndNodeIndex m.ref).1 = url)) then
          some ⟨doc, titleSlotFold url ⟨-1, 0, none⟩ ms, bodyItemsOf url ms⟩
        else none) := by
  intro ms
  induction ms with
  | nil =>
    intro gs hg
    simpa using hg
  | cons m ms ih =>
    intro gs hg
    simp only [List.foldl_cons]
    by_cases hu : (getUrlAndNodeIndex m.ref).1 = url
    · have hstep := searchStep_create docs gs m doc
        (by rw [hu]; exact hg) (by rw [hu]; exact hdoc)
      have hany : (m :: ms).any
          (fun m => decide ((getUrlAndNodeIndex m.ref).1 = url)) = true := by
        simp [hu]
      rw [hany, if_pos rfl]
      by_cases hn : (getUrlAndNodeIndex m.ref).2 = some 0
      · rw [hstep, if_pos hn, hu]
        have hfind := alistFind_set_self
          (alistSet gs url (⟨doc, ⟨-1, 0, none⟩, []⟩ : Group)) url
          (⟨doc, ⟨0, m.score, m.metadata⟩, []⟩ : Group)
        rw [searchStep_fold_existing docs url ms _ _ hfind]
        have htitle : titleSlotFold url ⟨-1, 0, none⟩ (m :: ms) =
            titleSlotFold url ⟨0, m.score, m.metadata⟩ ms := by
          unfold titleSlotFold
          simp only [List.foldl_cons, hu, hn, and_self, if_true]
        have hbody : bodyItemsOf url (m :: ms) = bodyItemsOf url ms := by
          unfold bodyItemsOf
          simp only [List.filterMap_cons, hu, hn]
          simp
        rw [htitle, hbody]
        exact rfl
      · rw [hstep, if_neg hn, hu]
        have hfind := alistFind_set_self
          (alistSet gs url (⟨doc, ⟨-1, 0, none⟩, []⟩ : Group)) url
          (⟨doc, ⟨-1, 0, none⟩,
            [⟨nodeIndexMinusOne (getUrlAndNodeIndex m.ref).2, m.score, m.metadata⟩]⟩ : Group)
        rw [searchStep_fold_existing docs url ms _ _ hfind]
        have htitle : titleSlotFold url ⟨-1, 0, none⟩ (m :: ms) =
            titleSlotFold url ⟨-1, 0, none⟩ ms := by
          unfold titleSlotFold
          simp only [List.foldl_cons, hu, hn, and_false, if_false]
        have hbody : bodyItemsOf url (m :: ms) =
            (⟨nodeIndexMinusOne (getUrlAndNodeIndex m.ref).2, m.score, m.metadata⟩ :
              MatchItem) :: bodyItemsOf url ms := by
          unfold bodyItemsOf
          simp only [List.filterMap_cons, hu, hn]
          rw [if_pos ⟨trivial, hn⟩]
        rw [htitle, hbody]
        exact rfl
    · have hstep := searchStep_other docs gs m url hu
      rw [ih (searchStep docs gs m) (by rw [hstep]; exact hg)]
      have hany : (m :: ms).any
          (fun m => decide ((getUrlAndNodeIndex m.ref).1 = url)) =
          ms.any (fun m => decide ((getUrlAndNodeIndex m.ref).1 = url)) := by
        simp [hu]
      have htitle : titleSlotFold url ⟨-1, 0, none⟩ (m :: ms) =
          titleSlotFold url ⟨-1, 0, none⟩ ms := by
        unfold titleSlotFold
        simp only [List.foldl_cons, hu, false_and, if_false]
      have hbody : bodyItemsOf url (m :: ms) = bodyItemsOf url ms := by
        unfold bodyItemsOf
        simp only [List.filterMap_cons, hu]
        simp
      rw [hany, htitle, hbody]

/-- A title slot is untouched by a fold over matches none of which is a
`lvl0` match for the url. -/
theorem titleSlotFold_nomatch (url : Str) :
    ∀ (ms : List FlatMatch) (t : TitleSlot),
      (∀ m ∈ ms, ¬((getUrlAndNodeIndex m.ref).1 = url ∧
        (getUrlAndNodeIndex m.ref).2 = some 0)) →
      titleSlotFold url t ms = t := by
  intro ms
  induction ms with
  | nil =>
    intro t _
    rfl
  | cons m ms ih =>
    intro t h
    have hcons : titleSlotFold url t (m :: ms) =
        titleSlotFold url
          (if (getUrlAndNodeIndex m.ref).1 = url ∧
              (getUrlAndNodeIndex m.ref).2 = some 0 then
            ⟨0, m.score, m.metadata⟩
          else t) ms := rfl
    rw [hcons, if_neg (h m (List.mem_cons_self m ms))]
    exact ih t (fun x hx => h x (List.mem_cons_of_mem m hx))

/-- Docs registry for the C2/C10 scenarios: one Section with two nodes. -/
def docsC2 : Docs := [("u".data, ⟨"T".data, ["A".data, "B".data], "u".data⟩)]

/-- Flat matches arriving for node 2 first (higher score), then node 1. -/
def flatC2 : List FlatMatch :=
  [⟨"u@lvl2".data, 2, none⟩, ⟨"u@lvl1".data, 1, none⟩]

/-- The group the C2 scenario builds. -/
def gC2 : Group :=
  ⟨⟨"T".data, ["A".data, "B".data], "u".data⟩, ⟨-1, 0, none⟩,
   [⟨some 1, 2, none⟩, ⟨some 0, 1, none⟩]⟩

/-- C2 counterexample: flat matches arrive for `u@lvl2` before `u@lvl1`;
the resulting body list holds the highlight of `nodes[1]` (text `B`,
score 2) before that of `nodes[0]` (text `A`, score 1): it is in
query-match order, not in original node order. -/
theorem c2_counterexample :
    searchHits docsC2 flatC2 0 =
      [⟨"u".data, ⟨0, [⟨MarkType.raw, some "T".data⟩]⟩,
        [⟨2, [⟨MarkType.raw, some "B".data⟩]⟩,
         ⟨1, [⟨MarkType.raw, some "A".data⟩]⟩]⟩] ∧
    ([⟨2, [⟨MarkType.raw, some "B".data⟩]⟩,
      ⟨1, [⟨MarkType.raw, some "A".data⟩]⟩] : List HighlightResult) ≠
      [⟨1, [⟨MarkType.raw, some "A".data⟩]⟩,
       ⟨2, [⟨MarkType.raw, some "B".data⟩]⟩] := by
  decide

/-- C2 (amended): the body list of a search result is ordered by flat-match
arrival (effectively score order), not by original node index: the group's
`matchData` equals exactly the consumed matches for the url with `N ≠ 0`,
in arrival order, each keyed by `N - 1`, and the hit's body maps them
through `nodes[N - 1]` in that same order. -/
theorem c2_body_match_order (results : List FlatMatch) (docs : Docs) (limit : Nat)
    (url : Str) (doc : Doc) (g : Group)
    (hdoc : alistFind docs url = some doc)
    (hg : alistFind (renestGroups docs (consumedMatches limit results)) url = some g) :
    g.doc = doc ∧
    g.matchData = bodyItemsOf url (consumedMatches limit results) ∧
    (hitOf (url, g)).body =
      (bodyItemsOf url (consumedMatches limit results)).map
        (fun it => nodeToMarks it.score it.metadata (nodeAt doc.nodes it.index)) := by
  have h2 := searchStep_fold_fresh docs url doc hdoc (consumedMatches limit results) [] rfl
  unfold renestGroups at hg
  rw [hg] at h2
  by_cases hany : (consumedMatches limit results).any
      (fun m => decide ((getUrlAndNodeIndex m.ref).1 = url)) = true
  · rw [if_pos hany] at h2
    injection h2 with h3
    subst h3
    exact ⟨rfl, rfl, rfl⟩
  · rw [if_neg hany] at h2
    cases h2

theorem c2_body_match_order_witness :
    gC2.doc = ⟨"T".data, ["A".data, "B".data], "u".data⟩ ∧
    gC2.matchData = bodyItemsOf "u".data (consumedMatches 0 flatC2) ∧
    (hitOf ("u".data, gC2)).body =
      (bodyItemsOf "u".data (consumedMatches 0 flatC2)).map
        (fun it => nodeToMarks it.score it.metadata
          (nodeAt (⟨"T".data, ["A".data, "B".data], "u".data⟩ : Doc).nodes it.index)) :=
  c2_body_match_order flatC2 docsC2 0 "u".data
    ⟨"T".data, ["A".data, "B".data], "u".data⟩ gC2 (by decide) (by decide)

/-- C10 (confirmed): every hit carries a title `HighlightResult` by
construction of the final mapping; and when no `url@lvl0` match was
consumed for the url, the title slot keeps its initial `⟨-1, 0, null⟩`
value, so the hit's title highlight is score `0` with exactly one `raw`
token holding the section's full title. -/
theorem c10_default_title (results : List FlatMatch) (docs : Docs) (limit : Nat)
    (url : Str) (doc : Doc) (g : Group)
    (hdoc : alistFind docs url = some doc)
    (hg : alistFind (renestGroups docs (consumedMatches limit results)) url = some g)
    (hnolvl0 : ∀ m ∈ consumedMatches limit results,
      ¬((getUrlAndNodeIndex m.ref).1 = url ∧
        (getUrlAndNodeIndex m.ref).2 = some 0)) :
    (hitOf (url, g)).title = ⟨0, [⟨MarkType.raw, some doc.title⟩]⟩ := by
  have h2 := searchStep_fold_fresh docs url doc hdoc (consumedMatches limit results) [] rfl
  unfold renestGroups at hg
  rw [hg] at h2
  by_cases hany : (consumedMatches limit results).any
      (fun m => decide ((getUrlAndNodeIndex m.ref).1 = url)) = true
  · rw [if_pos hany] at h2
    injection h2 with h3
    subst h3
    rw [show (hitOf (url, ⟨doc,
        titleSlotFold url ⟨-1, 0, none⟩ (consumedMatches limit results),
        bodyItemsOf url (consumedMatches limit results)⟩)).title =
        nodeToMarks
          (titleSlotFold url ⟨-1, 0, none⟩ (consumedMatches limit results)).score
          (titleSlotFold url ⟨-1, 0, none⟩ (consumedMatches limit results)).metadata
          (some doc.title) from rfl]
    rw [titleSlotFold_nomatch url (consumedMatches limit results) ⟨-1, 0, none⟩ hnolvl0]
    simp [nodeToMarks, positionToMarks]
  · rw [if_neg hany] at h2
    cases h2

theorem c10_default_title_witness :
    (hitOf ("u".data, gC2)).title = ⟨0, [⟨MarkType.raw, some "T".data⟩]⟩ :=
  c10_default_title flatC2 docsC2 0 "u".data
    ⟨"T".data, ["A".data, "B".data], "u".data⟩ gC2 (by decide) (by decide) (by decide)

end Datastore
